import Mathlib

/-!
Shallow embedding of the name/register comparison core of
antmicro/renode-models-analyzer (`RenodeModelsCompare`):
tokenizer pipeline (`tokenizer.py`), synonym generation (`synonyms.py`),
match scoring and register-group comparison (`regcompare.py`), and the
ranking entry point (`models_match.py`).

Python strings are Lean `String`s, ints are `Int`/`Nat`, floats are
modelled as exact rationals `ℚ`, and fallible operations return `Except`.
-/

/-- `tokenizer.py`, class `Token`: a token string plus an `atomic` marker. -/
structure Token where
  token : String
  atomic : Bool
deriving DecidableEq, Repr

/-- Interleaved split on maximal runs of characters satisfying `p`,
mirroring Python `re.split` with a single capturing group such as
`re.split(r'(_+)', w)`: the result alternates non-matching segments and
matched runs, with empty segments where the string starts/ends with a run.
`mode` is true while inside a matched run, `cur` accumulates the current
segment reversed. -/
def splitRunsGo (p : Char → Bool) (mode : Bool) (cur : List Char) : List Char → List (List Char)
  | [] => [cur.reverse] ++ (if mode then [[]] else [])
  | c :: cs =>
    if p c = mode then splitRunsGo p mode (c :: cur) cs
    else cur.reverse :: splitRunsGo p (p c) [c] cs

/-- `re.split(r'(<run of p>+)', s)` as a list of strings. -/
def splitRuns (p : Char → Bool) (s : String) : List String :=
  (splitRunsGo p false [] s.toList).map fun l => String.mk l

/-- `re.split(r'([A-Z][a-z]+)', s)` (tokenizer.py `CaseTokenizer`): the
captured match is one `[A-Z]` character followed by a maximal nonempty run
of `[a-z]` characters. -/
def caseSplitGo (fuel : Nat) (cur : List Char) (l : List Char) : List (List Char) :=
  match fuel with
  | 0 => [(cur.reverse ++ l)]
  | fuel + 1 =>
    match l with
    | [] => [cur.reverse]
    | [c] => [(c :: cur).reverse]
    | c :: d :: cs =>
      if ('A' ≤ c ∧ c ≤ 'Z') ∧ ('a' ≤ d ∧ d ≤ 'z') then
        let low := (d :: cs).takeWhile fun x => 'a' ≤ x ∧ x ≤ 'z'
        let rest := (d :: cs).dropWhile fun x => 'a' ≤ x ∧ x ≤ 'z'
        cur.reverse :: (c :: low) :: caseSplitGo fuel [] rest
      else caseSplitGo fuel (c :: cur) (d :: cs)

/-- `CaseTokenizer`'s split on a whole string. The fuel bound exceeds the
length, so the split is never truncated (each step consumes a character). -/
def caseSplit (s : String) : List String :=
  (caseSplitGo (s.toList.length + 1) [] s.toList).map fun l => String.mk l

/-- `re.split(rf'({name})', s)` for a literal `name` (the domain names used
by `NameTokenizer` contain no regex metacharacters): split on leftmost,
non-overlapping literal occurrences, keeping the separators. -/
def splitLitGo (pat : List Char) (fuel : Nat) (cur : List Char) (l : List Char) :
    List (List Char) :=
  match fuel with
  | 0 => [(cur.reverse ++ l)]
  | fuel + 1 =>
    match l with
    | [] => [cur.reverse]
    | c :: cs =>
      if pat ≠ [] ∧ pat.isPrefixOf (c :: cs) then
        cur.reverse :: pat :: splitLitGo pat fuel [] ((c :: cs).drop pat.length)
      else splitLitGo pat fuel (c :: cur) cs

/-- Literal split of a string on occurrences of `pat`. -/
def splitLit (pat : String) (s : String) : List String :=
  (splitLitGo pat.toList (s.toList.length + 1) [] s.toList).map fun l => String.mk l

/-- `Tokenizer._rem_empty` applied before wrapping: drop empty strings,
then wrap every piece as a non-atomic `Token`. -/
def wrapNonEmpty (pieces : List String) : List Token :=
  (pieces.filter fun s => s ≠ "").map fun s => Token.mk s false

/-- `UnderscoreTokenizer`: split based on underscores. -/
def underscoreTokenizer (w : String) : List Token :=
  wrapNonEmpty (splitRuns (fun c => c = '_') w)

/-- `DotTokenizer`: split based on dots. -/
def dotTokenizer (w : String) : List Token :=
  wrapNonEmpty (splitRuns (fun c => c = '.') w)

/-- `NumberTokenizer`: split based on runs of digits `[0-9]`. -/
def numberTokenizer (w : String) : List Token :=
  wrapNonEmpty (splitRuns (fun c => '0' ≤ c ∧ c ≤ '9') w)

/-- `CaseTokenizer`: split based on character-case change. -/
def caseTokenizer (w : String) : List Token :=
  wrapNonEmpty (caseSplit w)

/-- One iteration of `NameTokenizer.__call__`'s outer loop for a single
`name`: split every non-atomic token on `name` (atomic tokens are kept
whole), remove empty pieces, then mark every token whose text is in the
full names list as atomic. -/
def nameTokStep (names : List String) (words : List Token) (name : String) : List Token :=
  let ws := words.flatMap fun w =>
    if w.atomic then [w]
    else ((splitLit name w.token).filter fun s => s ≠ "").map fun s => Token.mk s false
  ws.map fun t => if names.contains t.token then { t with atomic := true } else t

/-- `NameTokenizer.__call__`: starting from the whole word as one token,
fold `nameTokStep` over the configured names. -/
def nameTokenizer (names : List String) (w : String) : List Token :=
  names.foldl (nameTokStep names) [Token.mk w false]

/-- `TokenizerPipeline.run_pipeline` generalized to any starting token list:
each stage maps non-atomic tokens to their re-tokenization of the token's
text, and passes atomic tokens through unchanged. -/
def runPipelineFrom (ts : List (String → List Token)) (toks : List Token) : List Token :=
  ts.foldl (fun acc tk => acc.flatMap fun t => if t.atomic then [t] else tk t.token) toks

/-- `TokenizerPipeline.__call__` on a word. -/
def runPipeline (ts : List (String → List Token)) (w : String) : List Token :=
  runPipelineFrom ts [Token.mk w false]

/-- `_renodeNameTokenizer`'s configured names. -/
def renodeNames : List String := ["GPIO", "I2C", "IRQ", "PCIExpress", "PCI", "SPI"]

/-- `get_default_tokenizer_pipeline`: NameTokenizer(renodeNames),
UnderscoreTokenizer, DotTokenizer, NumberTokenizer, CaseTokenizer. -/
def defaultPipeline : List (String → List Token) :=
  [nameTokenizer renodeNames, underscoreTokenizer, dotTokenizer, numberTokenizer, caseTokenizer]

/-- `WordCompare.__init__` filters out falsy names
(`list(filter(lambda a: a, names))`). -/
def filterNames (names : List String) : List String :=
  names.filter fun s => s ≠ ""

/-- The tokenizer pipeline built by `WordCompare.__init__`: the default
pipeline with `NameTokenizer(self.names)` prepended. -/
def wcTokenize (names : List String) (w : String) : List Token :=
  runPipeline (nameTokenizer (filterNames names) :: defaultPipeline) w

/-- `synonyms.py`, `SynonymsGen.SYNONYMS`: the synonym-group table,
including the trailing empty group. -/
def SYNONYMS : List (List String) :=
  [["Enable", "Enabled", "En"],
   ["Transmit", "Tx", "Xmit", "Transmitting"],
   ["Receive", "Rx", "Recv", "Receiving"],
   ["Short", "Shortcuts", "Shorts"],
   ["Device", "Dev"],
   ["Offset", "Off"],
   ["Control", "Ctrl", "Ctr", "Cr"],
   ["Interrupt", "Int", "Intc", "Irq"],
   ["Clear", "Clr"],
   ["Toggle", "Tog"],
   ["Physical", "Phy", "Ph"],
   ["Number", "Num"],
   ["Threshold", "Th", "Tr"],
   ["Identifier", "Id", "Iden", "Ident"],
   ["High", "Hi", "H"],
   ["Low", "Lo", "L"],
   ["Clock", "Clk"],
   ["Backup", "Bkp"],
   ["Wakeup", "Wu"],
   ["Timestamp", "Tst", "Ts"],
   ["Prescaler", "Pre"],
   ["Config", "Cfg"],
   ["Command", "Cmd"],
   ["Register", "Reg"],
   []]

/-- `SynonymsGen._remove_vowels`: delete every character matching
`[aeiou]` case-insensitively. -/
def removeVowels (w : String) : String :=
  String.mk (w.toList.filter fun c =>
    ¬ (c = 'a' ∨ c = 'e' ∨ c = 'i' ∨ c = 'o' ∨ c = 'u' ∨
       c = 'A' ∨ c = 'E' ∨ c = 'I' ∨ c = 'O' ∨ c = 'U'))

/-- Python `str.lower()` restricted to the ASCII range handled by the
program's register/synonym names: uppercase letters map to lowercase. -/
def pyLowerChar (c : Char) : Char :=
  if 'A' ≤ c ∧ c ≤ 'Z' then Char.ofNat (c.toNat + 32) else c

/-- `str.lower()` on a whole string. -/
def pyLower (s : String) : String :=
  String.mk (s.toList.map pyLowerChar)

/-- `SynonymsGen`'s default comparator: `lambda a, b: a.lower() == b.lower()`.
The `_strict_comparator` of `regcompare.py` computes the same function. -/
def defCmp (a b : String) : Bool :=
  pyLower a == pyLower b

/-- `SynonymsGen.vowels_cutoff` (always 1): minimum length for generated
vowel-stripped words. -/
def vowelsCutoff : Nat := 1

/-- `_delete_vowels_in_row` inside `get_word_synonyms`: each group member,
followed (when vowel-stripping is on and long enough) by its stripped form. -/
def rowExpand (dv : Bool) (row : List String) : List String :=
  row.flatMap fun w =>
    [w] ++ (if dv ∧ vowelsCutoff < (removeVowels w).length then [removeVowels w] else [])

/-- The row filter of `get_word_synonyms`: a group is selected when some
(expanded) member compares equal to the input `a`, or — with
vowel-stripping — to the stripped input `aDel`. -/
def rowSelected (dv : Bool) (a : String) (row : List String) : Bool :=
  (rowExpand dv row).any fun s => defCmp a s || (dv && defCmp (removeVowels a) s)

/-- The member itself as yielded by `get_word_synonyms` (deduplicated
against the input and, with vowel-stripping, against the stripped input). -/
def synMemberPlain (dv : Bool) (a w : String) : List String :=
  if dv then
    (if ¬ defCmp w (removeVowels a) ∧ ¬ defCmp w a then [w] else [])
  else
    (if ¬ defCmp w a then [w] else [])

/-- The member's vowel-stripped form as yielded by `get_word_synonyms`:
only with vowel-stripping, deduplicated against the member, the input and
the stripped input — and guarded by the length of the STRIPPED INPUT
`a_del` (`if len(a_del) > self.vowels_cutoff`), not of the stripped member. -/
def synMemberStripped (dv : Bool) (a w : String) : List String :=
  if dv then
    (if (¬ defCmp (removeVowels w) w ∧ ¬ defCmp (removeVowels w) a ∧
         ¬ defCmp (removeVowels w) (removeVowels a)) ∧
        vowelsCutoff < (removeVowels a).length
     then [removeVowels w] else [])
  else []

/-- The vowel-stripped form of the input word itself, yielded right after
the input (`synonyms.py` lines 74-78): only when it differs from the input
under the comparator and its own length exceeds the cutoff. -/
def synOwnStripped (dv : Bool) (a : String) : List String :=
  if dv ∧ ¬ defCmp (removeVowels a) a ∧ vowelsCutoff < (removeVowels a).length
  then [removeVowels a] else []

/-- `SynonymsGen.get_word_synonyms` with the default comparator and
`gen_without_vowels = dv`, as the list of yielded strings in order. -/
def getWordSynonyms (dv : Bool) (a : String) : List String :=
  [a] ++ synOwnStripped dv a ++
    (SYNONYMS.filter (rowSelected dv a)).flatMap fun row =>
      row.flatMap fun w => synMemberPlain dv a w ++ synMemberStripped dv a w

/-- `SynonymsGen.compare_words` (default comparator): some synonym of `a`
compares equal to some synonym of `b`. -/
def compareWords (dv : Bool) (a b : String) : Bool :=
  (getWordSynonyms dv a).any fun i => (getWordSynonyms dv b).any fun j => defCmp i j

/-- Decidable equality for `Except`, so concrete runs of the fallible
embedded operations can be settled by `decide`. -/
instance {ε α : Type} [DecidableEq ε] [DecidableEq α] : DecidableEq (Except ε α) :=
  fun x y =>
    match x, y with
    | .ok a, .ok b =>
      if h : a = b then .isTrue (by rw [h])
      else .isFalse (fun hc => h (Except.ok.inj hc))
    | .error a, .error b =>
      if h : a = b then .isTrue (by rw [h])
      else .isFalse (fun hc => h (Except.error.inj hc))
    | .ok _, .error _ => .isFalse (fun hc => Except.noConfusion hc)
    | .error _, .ok _ => .isFalse (fun hc => Except.noConfusion hc)

/-- Python exceptions raised by the embedded code. -/
inductive PyErr where
  | typeError
  | valueError
  | zeroDivisionError
deriving DecidableEq, Repr

/-- `regcompare.py`, class `MatchType` after a successful `__init__`:
`percent` is the validated score in `[0, 100]`; `cutoff` is always 0. -/
structure MatchType where
  percent : Int
  cutoff : Int
  word_a : String
  word_b : String
  fuzzy_match : Bool
  comp_name : String
deriving DecidableEq, Repr

/-- The argument kinds `MatchType.__init__` can receive for `percent`.
Python floats are modelled as exact rationals; `other` stands for any
value that is neither `bool`, `int` nor `float`. -/
inductive PercentArg where
  | ofFloat (q : ℚ)
  | ofBool (b : Bool)
  | ofInt (n : Int)
  | other
deriving DecidableEq

/-- The validation tail of `MatchType.__init__`: values outside `[0, 100]`
raise `ValueError`, otherwise the fields are stored (`cutoff = 0`,
`comp_name = ''`). -/
def validatePct (pct : Int) (word_a word_b : String) (fuzzy : Bool) :
    Except PyErr MatchType :=
  if pct < 0 ∨ pct > 100 then .error .valueError
  else .ok ⟨pct, 0, word_a, word_b, fuzzy, ""⟩

/-- `MatchType.__init__`: a float is converted by `ceil(percent * 100)`, a
bool maps to 0/100, an int is kept, anything else raises `TypeError`; then
the converted value is range-validated. -/
def mkMatchType (p : PercentArg) (word_a word_b : String) (fuzzy : Bool := false) :
    Except PyErr MatchType :=
  match p with
  | .ofFloat q => validatePct ⌈q * 100⌉ word_a word_b fuzzy
  | .ofBool b => validatePct (if b = false then 0 else 100) word_a word_b fuzzy
  | .ofInt n => validatePct n word_a word_b fuzzy
  | .other => .error .typeError

/-- `MatchType.__init__` applied to the float `m / t` (`t > 0`), the only
float shape the comparators build: `ceil((m / t) * 100)` computed exactly
as the natural division `(m * 100 + t - 1) / t`. The theorem
`matchTypeOfNatFrac_eq_mkMatchType` below proves this agrees with
`mkMatchType (.ofFloat ((m : ℚ) / t))`. -/
def matchTypeOfNatFrac (m t : Nat) (word_a word_b : String) (fuzzy : Bool) :
    Except PyErr MatchType :=
  validatePct (((m * 100 + t - 1) / t : Nat) : Int) word_a word_b fuzzy

/-- `MatchType.Exact`: score 100 (its `__init__` always succeeds). -/
def MatchType.Exact (word_a word_b : String) (fuzzy : Bool := false) : MatchType :=
  ⟨100, 0, word_a, word_b, fuzzy, ""⟩

/-- `MatchType.NoMatch`: score 0. -/
def MatchType.NoMatch (word_a word_b : String) : MatchType :=
  ⟨0, 0, word_a, word_b, false, ""⟩

/-- A non-`MatchType` operand of `__eq__`/`__lt__`, next to a genuine one. -/
inductive PyOperand where
  | mt (m : MatchType)
  | nonMatchType
deriving DecidableEq

/-- `MatchType.__eq__`: raises `TypeError` on a non-`MatchType` operand,
otherwise compares `percent` only. -/
def matchTypeEq (a : MatchType) (other : PyOperand) : Except PyErr Bool :=
  match other with
  | .nonMatchType => .error .typeError
  | .mt b => .ok (a.percent == b.percent)

/-- `MatchType.__lt__`: raises `TypeError` on a non-`MatchType` operand,
otherwise compares `percent` only. -/
def matchTypeLt (a : MatchType) (other : PyOperand) : Except PyErr Bool :=
  match other with
  | .nonMatchType => .error .typeError
  | .mt b => .ok (a.percent < b.percent)

/-- Python `max(a, b)` under `MatchType.__lt__`: returns the second
argument only when it is strictly greater, so ties keep the first. -/
def maxMT (a b : MatchType) : MatchType :=
  if a.percent < b.percent then b else a

/-- `itertools.zip_longest(xs, ys, fillvalue=None)` with `None` as `none`. -/
def zipLongest {α : Type} : List α → List α → List (Option α × Option α)
  | [], ys => ys.map fun y => (none, some y)
  | x :: xs, [] => (some x, none) :: zipLongest xs []
  | x :: xs, y :: ys => (some x, some y) :: zipLongest xs ys

/-- `str(...)` as applied by `MatchSimple._compare_token` to a
`zip_longest` element: Python renders the `None` fill value as `"None"`. -/
def pyStr (t : Option Token) : String :=
  match t with
  | none => "None"
  | some tok => tok.token

/-- `MatchSimple.match` (the exact-token strategy), with the word-compare
pipeline for `names` and a synonyms generator with `gen_without_vowels = dv`:
tokenize both words, pair tokens with `zip_longest`, count pairs where
`compare_words` holds, and build `MatchType(matched / parsed)` — the
division raises `ZeroDivisionError` when no pair was parsed. -/
def matchSimple (names : List String) (dv : Bool) (word_a word_b : String) :
    Except PyErr MatchType :=
  let tokens_a := wcTokenize names word_a
  let tokens_b := wcTokenize names word_b
  let pairs := zipLongest tokens_a tokens_b
  let matched_exact := pairs.countP fun p => compareWords dv (pyStr p.1) (pyStr p.2)
  let tokens_parsed := pairs.length
  if tokens_parsed = 0 then .error .zeroDivisionError
  else matchTypeOfNatFrac matched_exact tokens_parsed word_a word_b false

/-- `name.rstrip(string.digits)`: strip trailing ASCII digits. -/
def rstripDigits (s : String) : String :=
  String.mk (((s.toList.reverse).dropWhile fun c => '0' ≤ c ∧ c ≤ '9').reverse)

/-- `RelaxedMatchingBase._eat_nonsense_tokens`: drop every token that
`SynonymsGen(gen_without_vowels=True).compare_words` relates to one of the
nonsense words `['_', '', ' '] + names + [rstrip-digits of each name]`. -/
def eatNonsenseTokens (names : List String) (tokens : List Token) : List Token :=
  let nonsense := ["_", "", " "] ++ names ++ names.map rstripDigits
  tokens.filter fun t => ¬ nonsense.any fun e => compareWords true e t.token

/-- The pairing loop of `MatchRelaxed.match`: draw one token from each
list until either is exhausted, counting parsed pairs and pairs matched by
`cmp`. Returns `(matched_exact, tokens_parsed)`. -/
def relaxedLoop (cmp : String → String → Bool) :
    List Token → List Token → Nat × Nat
  | ta :: as, tb :: bs =>
    let r := relaxedLoop cmp as bs
    ((if cmp ta.token tb.token then r.1 + 1 else r.1), r.2 + 1)
  | _, _ => (0, 0)

/-- `MatchRelaxed.match` parameterized by the token comparator `cmp`
(`SynonymsGen(comparator=..., gen_without_vowels=True).compare_words`;
the non-fuzzy variant uses `_strict_comparator`, which equals `defCmp`,
while the fuzzy variant's `_loose_comparator` relies on the external
`rapidfuzz` Levenshtein and is left as a parameter): tokenize, eat
nonsense tokens, pair positionally, and score matched/max-total when at
least one pair was parsed, else `NoMatch`. -/
def matchRelaxedWith (cmp : String → String → Bool) (names : List String)
    (isFuzzy : Bool) (word_a word_b : String) : Except PyErr MatchType :=
  let tokens_a := eatNonsenseTokens names (wcTokenize names word_a)
  let tokens_b := eatNonsenseTokens names (wcTokenize names word_b)
  let max_total_tokens := max tokens_a.length tokens_b.length
  let r := relaxedLoop cmp tokens_a tokens_b
  if r.2 > 0 then
    matchTypeOfNatFrac r.1 max_total_tokens word_a word_b isFuzzy
  else .ok (MatchType.NoMatch word_a word_b)

/-- The non-fuzzy `MatchRelaxed()`: token comparator
`SynonymsGen(comparator=_strict_comparator, gen_without_vowels=True).compare_words`,
i.e. `compareWords true` since `_strict_comparator` equals the default
comparator. -/
def matchRelaxedStrict (names : List String) (word_a word_b : String) :
    Except PyErr MatchType :=
  matchRelaxedWith (compareWords true) names false word_a word_b

/-- A registered comparator as seen by `WordCompare.run_compare`: its
`name` (`type(self).__name__`) and its `match` method, abstracted as a
total function on word pairs (the concrete comparators of `regcompare.py`,
including the fuzzy Levenshtein-based ones that depend on the external
`rapidfuzz` package, are instances). -/
structure Cmp where
  name : String
  fn : String → String → MatchType

/-- Insertion-ordered association-list update, matching Python
`dict.__setitem__`: an existing key keeps its position, a new key is
appended. -/
def alInsert {κ β : Type} [DecidableEq κ] : List (κ × β) → κ → β → List (κ × β)
  | [], k, v => [(k, v)]
  | (k2, v2) :: rest, k, v =>
    if k2 = k then (k2, v) :: rest else (k2, v2) :: alInsert rest k v

/-- Association-list lookup, matching Python `dict.get`. -/
def alLookup {κ β : Type} [DecidableEq κ] : List (κ × β) → κ → Option β
  | [], _ => none
  | (k2, v) :: rest, k => if k2 = k then some v else alLookup rest k

/-- Association-list deletion of the (unique) entry for a key, matching
Python `del d[k]` when the key is present. -/
def alErase {κ β : Type} [DecidableEq κ] : List (κ × β) → κ → List (κ × β)
  | [], _ => []
  | (k2, v) :: rest, k => if k2 = k then rest else (k2, v) :: alErase rest k

/-- The mutable bookkeeping of `WordCompare`: the per-comparator `matches`
dict, the per-pair `best_matches` dict, the `unmatched` list and the `runs`
counter. -/
structure WCState where
  matchesDict : List (String × List MatchType)
  best_matches : List ((String × String) × MatchType)
  unmatched : List (String × String)
  runs : Nat

/-- `WordCompare` state after `register_comparator` was called for each
comparator (each call sets `matches[comp.name] = []`). -/
def initWCState (comps fuzzyComps : List Cmp) : WCState :=
  ⟨(comps ++ fuzzyComps).foldl (fun d c => alInsert d c.name []) [], [], [], 0⟩

/-- One iteration of the `for comp in comparators` loop inside
`run_compare.run_cmp`: run the comparator, stamp `comp_name`, update the
running best, append to `matches[name]`, update `best_matches[(a, b)]`
(`max` keeps the earlier entry on ties), yield the pair, and request
termination (`raise GeneratorExit`) when the match equals
`MatchType.Exact(word_a, word_b)` — `__eq__` compares `percent` only, so
the test is `percent == 100`. -/
def runOneCmp (word_a word_b : String) (st : WCState) (best : MatchType) (c : Cmp) :
    WCState × MatchType × (String × MatchType) × Bool :=
  let m := { c.fn word_a word_b with comp_name := c.name }
  let best2 := maxMT best m
  let st2 : WCState :=
    { st with
      matchesDict := alInsert st.matchesDict c.name ((alLookup st.matchesDict c.name).getD [] ++ [m])
      best_matches := alInsert st.best_matches (word_a, word_b)
        (maxMT ((alLookup st.best_matches (word_a, word_b)).getD
          (MatchType.NoMatch word_a word_b)) m) }
  (st2, best2, (c.name, m), m.percent == 100)

/-- `run_cmp` over a comparator list: returns the final state, the running
best match, the yielded `(name, match)` pairs, and whether it stopped with
`GeneratorExit` (a comparator scored 100). -/
def runCmpSeq (word_a word_b : String) :
    List Cmp → WCState → MatchType → WCState × MatchType × List (String × MatchType) × Bool
  | [], st, best => (st, best, [], false)
  | c :: cs, st, best =>
    let r := runOneCmp word_a word_b st best c
    if r.2.2.2 then (r.1, r.2.1, [r.2.2.1], true)
    else
      let rest := runCmpSeq word_a word_b cs r.1 r.2.1
      (rest.1, rest.2.1, r.2.2.1 :: rest.2.2.1, rest.2.2.2)

/-- `WordCompare.run_compare`: bump `runs`, run the primary comparators,
fall back to the fuzzy ones when `fallback_fuzzy` and no 100% match was
found; if the whole run ends without a perfect match and the best is not
better than `NoMatch` (`percent > 0` fails), record the pair as unmatched
and delete its `best_matches` entry. Returns the final state and the list
of yielded `(name, match)` pairs. -/
def runCompare (comps fuzzyComps : List Cmp) (fallbackFuzzy : Bool)
    (word_a word_b : String) (st0 : WCState) : WCState × List (String × MatchType) :=
  let st := { st0 with runs := st0.runs + 1 }
  let r1 := runCmpSeq word_a word_b comps st (MatchType.NoMatch word_a word_b)
  if r1.2.2.2 then (r1.1, r1.2.2.1)
  else
    let r2 :=
      if fallbackFuzzy then runCmpSeq word_a word_b fuzzyComps r1.1 r1.2.1
      else (r1.1, r1.2.1, [], false)
    let executed := r1.2.2.1 ++ r2.2.2.1
    if r2.2.2.2 then (r2.1, executed)
    else
      if r2.2.1.percent > 0 then (r2.1, executed)
      else
        ({ r2.1 with
            unmatched := r2.1.unmatched ++ [(word_a, word_b)]
            best_matches := alErase r2.1.best_matches (word_a, word_b) }, executed)

/-- `registers/register.py`, class `Register`, restricted to the
properties `compare_register_group_layout` reads: `Name` and `Offset`. -/
structure Reg where
  Name : String
  Offset : Int
deriving DecidableEq

/-- `RegistersGroup` as consumed by `RegCompare`: the peripheral name and
the (offset-sorted) register list. -/
structure RegistersGroup where
  peripheral_name : String
  registers : List Reg

/-- `RegCompare.CompareResult` (a namedtuple). `Unmatched` and `Avg` are
Python floats, modelled as exact rationals. -/
structure CompareResult where
  PeripheralPair : String × String
  LeftHeavy : Nat
  RightHeavy : Nat
  Unmatched : ℚ
  Avg : ℚ

/-- `create_dict` inside `compare_register_group_layout`:
`{reg.Offset: reg for reg in regs}` — insertion order with later
duplicates overwriting in place. -/
def createDict (regs : List Reg) : List (Int × Reg) :=
  regs.foldl (fun d r => alInsert d r.Offset r) []

/-- One iteration of the `for (off, reg) in offs2.items()` loop with
`match_names` on: offsets present in `offs1` run
`run_compare(reg.Name, offs1[off].Name, fallback_fuzzy=True)`, the others
bump `reg1_heavy`. -/
def layoutStep (comps fuzzyComps : List Cmp) (offs1 : List (Int × Reg))
    (acc : WCState × Nat) (p : Int × Reg) : WCState × Nat :=
  match alLookup offs1 p.1 with
  | some reg1 => ((runCompare comps fuzzyComps true p.2.Name reg1.Name acc.1).1, acc.2)
  | none => (acc.1, acc.2 + 1)

/-- The comparison loops of `compare_register_group_layout`: the
`WordCompare` state after processing `offs2`, `reg1_heavy`, and
`reg2_heavy` (offsets of `offs1` absent from `offs2`). -/
def layoutState (comps fuzzyComps : List Cmp) (g1 g2 : RegistersGroup) :
    WCState × Nat × Nat :=
  let offs1 := createDict g1.registers
  let offs2 := createDict g2.registers
  let r := offs2.foldl (layoutStep comps fuzzyComps offs1) (initWCState comps fuzzyComps, 0)
  (r.1, r.2, (offs1.filter fun p => (alLookup offs2 p.1).isNone).length)

/-- `RegCompare.compare_register_group_layout`, parameterized by the
comparator lists registered by the `match_names` branch (`MatchSimple`,
`MatchRelaxed`, `MatchFirstLetters`, plus the fuzzy `MatchRelaxed(True)`
and `MatchFirstLetters(True)`, abstracted as total functions): with
`match_names` the result carries `unmatched = 100` when `runs == 0` else
`unmatched_cnt * 100 / runs`, and `avg_certainty = 0` when there are no
best matches else their mean (`MatchType.match` is the `percent` field);
without `match_names` it returns `None`. -/
def compareRegisterGroupLayout (comps fuzzyComps : List Cmp)
    (g1 g2 : RegistersGroup) (matchNames : Bool) : Option CompareResult :=
  if matchNames then
    let r := layoutState comps fuzzyComps g1 g2
    let unmatched_cnt := r.1.unmatched.length
    let unmatched : ℚ :=
      if r.1.runs = 0 then 100 else (unmatched_cnt * 100 : ℚ) / r.1.runs
    let matches_cnt := r.1.best_matches.length
    let avg_certainty : ℚ :=
      if matches_cnt = 0 then 0
      else (r.1.best_matches.map fun p => (p.2.percent : ℚ)).sum / matches_cnt
    some ⟨(g1.peripheral_name, g2.peripheral_name), r.2.1, r.2.2, unmatched, avg_certainty⟩
  else none

/-- The score result the specification predicts for the exact-token
strategy: positions matched on the COMMON prefix (`zip`) of the two token
sequences, divided by the longer sequence's length — padding is assumed to
never count as matched. Written from the spec's words, to be compared with
`matchSimple`, which is translated from the code. -/
def specExactTokenResult (names : List String) (dv : Bool) (word_a word_b : String) :
    Except PyErr MatchType :=
  let tokens_a := wcTokenize names word_a
  let tokens_b := wcTokenize names word_b
  let matchedCommon :=
    (tokens_a.zip tokens_b).countP fun p => compareWords dv p.1.token p.2.token
  matchTypeOfNatFrac matchedCommon (max tokens_a.length tokens_b.length) word_a word_b false

/-- The `(name, match)` pair yielded by `run_compare` for comparator `c`
on `(a, b)`. -/
def cmpEntry (word_a word_b : String) (c : Cmp) : String × MatchType :=
  (c.name, { c.fn word_a word_b with comp_name := c.name })

/-- A concrete `CompareResult` used to exercise the ranking entry point. -/
def sampleResult : CompareResult :=
  ⟨("UART1", "UART2"), 0, 0, 0, 0⟩

/-- The stages of `models_match.match_most_similar` that we track: the
decision-matrix construction (`skc.mkdm`, executed before the
`len(data) < 2` check) and the multi-criteria transforms ending in TOPSIS. -/
inductive RankStep where
  | mkdm
  | negateMinimize
  | sumScaler
  | vectorScaler
  | topsis
deriving DecidableEq, Repr

/-- What `match_most_similar` returns: the sole `CompareResult` in the
short-circuit case, the TOPSIS winner key in the multi-candidate case
(computed by the external `skcriteria` library, modelled abstractly), or
an `IndexError` on the empty list (`comparison_results[0]`). -/
inductive RankOutcome where
  | single (r : CompareResult)
  | topsisBest
  | indexError

/-- `models_match.match_most_similar`: builds `data`/`keys`, constructs
the decision matrix with `skc.mkdm`, and only then short-circuits when
`len(data) < 2`, returning `comparison_results[0]`; otherwise it applies
`NegateMinimize`, `SumScaler`, `VectorScaler` and evaluates `TOPSIS`.
Returns the executed stages and the outcome. -/
def matchMostSimilar (comparison_results : List CompareResult) :
    List RankStep × RankOutcome :=
  if comparison_results.length < 2 then
    ([RankStep.mkdm],
      match comparison_results with
      | [] => RankOutcome.indexError
      | r :: _ => RankOutcome.single r)
  else
    ([RankStep.mkdm, RankStep.negateMinimize, RankStep.sumScaler,
      RankStep.vectorScaler, RankStep.topsis], RankOutcome.topsisBest)

/-- A concrete comparator that always reports an exact match, used to
exercise `run_compare`'s early termination. -/
def cmpExact : Cmp :=
  ⟨"AlwaysExact", fun a b => MatchType.Exact a b⟩

/-- A concrete comparator that never matches. -/
def cmpNone : Cmp :=
  ⟨"NeverMatch", fun a b => MatchType.NoMatch a b⟩

/-!
## Theorems

First the arithmetic bridge between the executable percent computation of
`matchTypeOfNatFrac` and the real `ceil` used by `MatchType.__init__`,
then the claims.
-/

/-- The natural division `(m * 100 + t - 1) / t` computes exactly
`ceil((m * 100) / t)` for `t > 0`. -/
theorem natFrac_pct_eq_ceil (m t : Nat) (ht : 0 < t) :
    (((m * 100 + t - 1) / t : Nat) : Int) = ⌈((m : ℚ) * 100) / t⌉ := by
  have hmod := Nat.div_add_mod (m * 100 + t - 1) t
  have hltm := Nat.mod_lt (m * 100 + t - 1) ht
  set n := (m * 100 + t - 1) / t with hn
  have hA : m * 100 ≤ t * n := by omega
  have hB : t * n < m * 100 + t := by omega
  have htQ : (0 : ℚ) < (t : ℚ) := by exact_mod_cast ht
  symm
  rw [Int.ceil_eq_iff]
  constructor
  · rw [lt_div_iff₀ htQ]
    have hB2 : (t : ℚ) * n < m * 100 + t := by exact_mod_cast hB
    push_cast
    nlinarith
  · rw [div_le_iff₀ htQ]
    have hA2 : (m : ℚ) * 100 ≤ t * n := by exact_mod_cast hA
    push_cast
    nlinarith

/-- `matchTypeOfNatFrac` is `MatchType.__init__` applied to the float
`m / t`: the embedding's executable construction agrees with
`mkMatchType (.ofFloat ((m : ℚ) / t))` whenever `t > 0`. -/
theorem matchTypeOfNatFrac_eq_mkMatchType (m t : Nat) (ht : 0 < t)
    (a b : String) (fz : Bool) :
    matchTypeOfNatFrac m t a b fz = mkMatchType (.ofFloat ((m : ℚ) / t)) a b fz := by
  have hq : ((m : ℚ) / t) * 100 = ((m : ℚ) * 100) / t := by ring
  simp only [matchTypeOfNatFrac, mkMatchType, hq, natFrac_pct_eq_ceil m t ht]

/-- `MatchType.__init__` on a float in `[0, 1]` succeeds and stores
`ceil(q * 100)`. -/
theorem mkMatchType_ofFloat_ok (q : ℚ) (h0 : 0 ≤ q) (h1 : q ≤ 1)
    (a b : String) (fz : Bool) :
    mkMatchType (.ofFloat q) a b fz = .ok ⟨⌈q * 100⌉, 0, a, b, fz, ""⟩ := by
  have hc0 : 0 ≤ ⌈q * 100⌉ := Int.ceil_nonneg (by positivity)
  have hc1 : ⌈q * 100⌉ ≤ 100 := Int.ceil_le.mpr (by push_cast; nlinarith)
  simp only [mkMatchType, validatePct]
  rw [if_neg]
  omega

/-- `matchTypeOfNatFrac` succeeds when the fraction is genuine
(`m ≤ t`, `t > 0`), returning the naturally computed ceiling percent. -/
theorem matchTypeOfNatFrac_ok (m t : Nat) (hm : m ≤ t) (ht : 0 < t)
    (a b : String) (fz : Bool) :
    matchTypeOfNatFrac m t a b fz =
      .ok ⟨(((m * 100 + t - 1) / t : Nat) : Int), 0, a, b, fz, ""⟩ := by
  have hlt : (m * 100 + t - 1) / t < 101 := by
    rw [Nat.div_lt_iff_lt_mul ht]
    omega
  have hlt2 : (((m * 100 + t - 1) / t : Nat) : Int) < 101 := by exact_mod_cast hlt
  have hge : (0 : Int) ≤ (((m * 100 + t - 1) / t : Nat) : Int) := Int.natCast_nonneg _
  simp only [matchTypeOfNatFrac, validatePct]
  rw [if_neg]
  omega

/-- C1 (counterexample): the claim says a singleton input skips the
decision-matrix construction, but `skc.mkdm` runs before the
`len(data) < 2` short-circuit: on the concrete singleton `[sampleResult]`
the executed stages do include the decision-matrix construction. -/
theorem rank_singleton_builds_dm :
    RankStep.mkdm ∈ (matchMostSimilar [sampleResult]).1 := by
  decide

/-- C1 (amended): for every singleton list, `match_most_similar` returns
the sole `CompareResult` and runs none of the multi-criteria stages
(no `NegateMinimize`/scaler transforms, no TOPSIS evaluation) — but the
decision matrix is still constructed before the length check. -/
theorem rank_singleton_short_circuits (r : CompareResult) :
    matchMostSimilar [r] = ([RankStep.mkdm], RankOutcome.single r) ∧
    RankStep.topsis ∉ (matchMostSimilar [r]).1 ∧
    RankStep.negateMinimize ∉ (matchMostSimilar [r]).1 := by
  have h : matchMostSimilar [r] = ([RankStep.mkdm], RankOutcome.single r) := rfl
  refine ⟨h, ?_, ?_⟩ <;> rw [h] <;> simp

/-- C3 (counterexample): with vowel-stripping on, `get_word_synonyms` of
`"Iden"` yields the one-letter string `"d"` (the stripped form of the
group member `"Id"`), which is not itself a listed group member — exactly
the output the repository's own test asserts. -/
theorem synonyms_yield_one_letter_stripped :
    "d" ∈ getWordSynonyms true "Iden" ∧ "d".length = 1 ∧ "d" ∉ SYNONYMS.flatten := by
  decide

/-- C3 (amended): the vowel-stripped form of the INPUT word is only
yielded when its own length exceeds the cutoff of 1; but the length guard
for a synonym-group MEMBER's stripped form checks the stripped input's
length (`len(a_del)`), not the stripped member's, so a one-letter stripped
member form can be yielded whenever the stripped input is longer than one
character. -/
theorem synonyms_stripped_length_guard :
    (∀ a s, s ∈ synOwnStripped true a → 1 < s.length) ∧
    (∀ a w s, s ∈ synMemberStripped true a w → 1 < (removeVowels a).length) := by
  constructor
  · intro a s hs
    simp only [synOwnStripped, vowelsCutoff] at hs
    split at hs
    · next h =>
      simp only [List.mem_singleton] at hs
      subst hs
      exact h.2.2
    · simp at hs
  · intro a w s hs
    simp only [synMemberStripped, vowelsCutoff] at hs
    split at hs
    · split at hs
      · next h =>
        exact h.2
      · simp at hs
    · simp at hs

/-- C3 (witness): the amended guard applied at concrete inputs — the
stripped input `"Tx"` of `"Txe"` is long enough, and the member-stripped
yield `"d"` for input `"Iden"` certifies that the stripped input `"dn"`
is longer than one character. -/
theorem synonyms_stripped_length_guard_witness :
    1 < "Tx".length ∧ 1 < (removeVowels "Iden").length :=
  ⟨synonyms_stripped_length_guard.1 "Txe" "Tx" (by decide),
   synonyms_stripped_length_guard.2 "Iden" "Id" "d" (by decide)⟩

/-- C7: `MatchType` construction maps a float fraction `q ∈ [0, 1]` to
`ceil(q * 100)`, the booleans to 100/0, and an integer in `[0, 100]` to
itself. -/
theorem matchtype_score_construction (q : ℚ) (hq0 : 0 ≤ q) (hq1 : q ≤ 1)
    (n : Int) (hn0 : 0 ≤ n) (hn1 : n ≤ 100) (a b : String) (fz : Bool) :
    mkMatchType (.ofFloat q) a b fz = .ok ⟨⌈q * 100⌉, 0, a, b, fz, ""⟩ ∧
    mkMatchType (.ofBool true) a b fz = .ok ⟨100, 0, a, b, fz, ""⟩ ∧
    mkMatchType (.ofBool false) a b fz = .ok ⟨0, 0, a, b, fz, ""⟩ ∧
    mkMatchType (.ofInt n) a b fz = .ok ⟨n, 0, a, b, fz, ""⟩ := by
  refine ⟨mkMatchType_ofFloat_ok q hq0 hq1 a b fz, rfl, rfl, ?_⟩
  simp only [mkMatchType, validatePct]
  rw [if_neg]
  omega

/-- C7 (witness): the construction rules at the concrete inputs `0.5`
and `42`. -/
theorem matchtype_score_construction_witness :
    mkMatchType (.ofFloat (1 / 2)) "a" "b" false =
      .ok ⟨⌈(1 / 2 : ℚ) * 100⌉, 0, "a", "b", false, ""⟩ ∧
    mkMatchType (.ofInt 42) "a" "b" false = .ok ⟨42, 0, "a", "b", false, ""⟩ := by
  have h := matchtype_score_construction (1 / 2) (by norm_num) (by norm_num)
    42 (by norm_num) (by norm_num) "a" "b" false
  exact ⟨h.1, h.2.2.2⟩

/-- C8: constructing a `MatchType` from an integer percent outside
`[0, 100]` raises `ValueError`, from a value of the wrong kind raises
`TypeError`, and `__eq__`/`__lt__` against a non-`MatchType` raise
`TypeError` instead of returning a result. -/
theorem matchtype_invalid_construction (n : Int) (hn : n < 0 ∨ 100 < n)
    (m : MatchType) (a b : String) (fz : Bool) :
    mkMatchType (.ofInt n) a b fz = .error .valueError ∧
    mkMatchType .other a b fz = .error .typeError ∧
    matchTypeEq m .nonMatchType = .error .typeError ∧
    matchTypeLt m .nonMatchType = .error .typeError := by
  refine ⟨?_, rfl, rfl, rfl⟩
  simp only [mkMatchType, validatePct]
  rw [if_pos]
  omega

/-- C8 (witness): `MatchType(percent=110, ...)` fails at the concrete
input 110. -/
theorem matchtype_invalid_construction_witness :
    mkMatchType (.ofInt 110) "x" "y" false = .error .valueError :=
  (matchtype_invalid_construction 110 (by norm_num)
    (MatchType.NoMatch "x" "y") "x" "y" false).1

/-- C10: on the empty-string pair both words tokenize to zero tokens, so
the exact-token strategy's final division has a zero denominator and
raises `ZeroDivisionError` instead of returning a `MatchType`; the
relaxed-token strategy guards the same situation and returns `NoMatch`. -/
theorem matchsimple_division_by_zero :
    wcTokenize [] "" = [] ∧
    matchSimple [] true "" "" = .error .zeroDivisionError ∧
    matchSimple [] false "" "" = .error .zeroDivisionError ∧
    matchRelaxedWith (compareWords true) [] false "" "" = .ok (MatchType.NoMatch "" "") := by
  decide

/-- Every stage of `run_pipeline` passes atomic tokens through unchanged
(`new_tokens += tokenizer(str(token)) if token.atomic != True else [token]`),
so an atomic token survives every remaining stage. -/
theorem mem_runPipelineFrom_of_atomic (ts : List (String → List Token)) :
    ∀ (l : List Token) (t : Token), t ∈ l → t.atomic = true → t ∈ runPipelineFrom ts l := by
  induction ts with
  | nil =>
    intro l t ht _
    simpa [runPipelineFrom] using ht
  | cons tk ts ih =>
    intro l t ht hat
    have hstep : t ∈ l.flatMap fun x => if x.atomic then [x] else tk x.token :=
      List.mem_flatMap.mpr ⟨t, ht, by simp [hat]⟩
    simpa only [runPipelineFrom, List.foldl_cons] using ih _ t hstep hat

/-- C9: tokenizing `"IRQTxEnableDev"` with the default pipeline (whose
domain names include `IRQ`) yields the atomic token `IRQ` followed by the
non-atomic tokens `Tx`, `Enable`, `Dev` in that order; and no later stage
of the pipeline ever splits or alters a token marked atomic. -/
theorem tokenize_irq_atomic :
    runPipeline defaultPipeline "IRQTxEnableDev" =
      [⟨"IRQ", true⟩, ⟨"Tx", false⟩, ⟨"Enable", false⟩, ⟨"Dev", false⟩] ∧
    ∀ (ts : List (String → List Token)) (l : List Token) (t : Token),
      t ∈ l → t.atomic = true → t ∈ runPipelineFrom ts l :=
  ⟨by decide, mem_runPipelineFrom_of_atomic⟩

/-- C9 (witness): the atomic `IRQ` token survives the case-splitting stage
at a concrete input. -/
theorem tokenize_irq_atomic_witness :
    Token.mk "IRQ" true ∈ runPipelineFrom [caseTokenizer] [Token.mk "IRQ" true] :=
  tokenize_irq_atomic.2 [caseTokenizer] [Token.mk "IRQ" true] (Token.mk "IRQ" true)
    (by decide) rfl

/-- `zip_longest` produces exactly `max` of the two lengths many pairs. -/
theorem zipLongest_length {α : Type} :
    ∀ (xs ys : List α), (zipLongest xs ys).length = max xs.length ys.length := by
  intro xs
  induction xs with
  | nil => intro ys; simp [zipLongest]
  | cons x xs ih =>
    intro ys
    cases ys with
    | nil => simp [zipLongest, ih]
    | cons y ys => simp [zipLongest, ih, Nat.succ_max_succ]

/-- `zip_longest` decomposes into the common `zip` prefix followed by the
surplus of whichever list is longer, padded with `none`. -/
theorem zipLongest_decomp {α : Type} :
    ∀ (xs ys : List α),
      zipLongest xs ys = ((xs.zip ys).map fun p => (some p.1, some p.2)) ++
        ((xs.drop ys.length).map fun x => (some x, none)) ++
        ((ys.drop xs.length).map fun y => ((none : Option α), some y)) := by
  intro xs
  induction xs with
  | nil => intro ys; simp [zipLongest]
  | cons x xs ih =>
    intro ys
    cases ys with
    | nil => simp [zipLongest, ih]
    | cons y ys => simp [zipLongest, ih]

/-- The pairing loop of `MatchRelaxed.match` counts matches over the
common `zip` prefix and parses `min` of the two lengths many pairs. -/
theorem relaxedLoop_eq (cmp : String → String → Bool) :
    ∀ (xs ys : List Token),
      relaxedLoop cmp xs ys =
        ((xs.zip ys).countP fun p => cmp p.1.token p.2.token,
          min xs.length ys.length) := by
  intro xs
  induction xs with
  | nil => intro ys; cases ys <;> simp [relaxedLoop]
  | cons x xs ih =>
    intro ys
    cases ys with
    | nil => simp [relaxedLoop]
    | cons y ys =>
      rw [relaxedLoop, ih]
      simp only [List.zip_cons_cons, List.countP_cons, List.length_cons,
        Nat.succ_min_succ]
      split <;> simp_all

/-- C6: for every pair of words (and any token comparator), the
relaxed-token strategy returns `NoMatch` without dividing by zero when
either filtered token sequence is empty (zero pairs compared), and
otherwise scores matched pairs over `max` of the two filtered lengths,
i.e. `ceil((matched / max_total) * 100)`. -/
theorem relaxed_score_formula (cmp : String → String → Bool) (names : List String)
    (fz : Bool) (a b : String) :
    ((eatNonsenseTokens names (wcTokenize names a) = [] ∨
      eatNonsenseTokens names (wcTokenize names b) = []) →
      matchRelaxedWith cmp names fz a b = .ok (MatchType.NoMatch a b)) ∧
    (eatNonsenseTokens names (wcTokenize names a) ≠ [] →
      eatNonsenseTokens names (wcTokenize names b) ≠ [] →
      matchRelaxedWith cmp names fz a b =
        .ok ⟨(((((eatNonsenseTokens names (wcTokenize names a)).zip
              (eatNonsenseTokens names (wcTokenize names b))).countP fun p =>
                cmp p.1.token p.2.token) * 100 +
            max (eatNonsenseTokens names (wcTokenize names a)).length
              (eatNonsenseTokens names (wcTokenize names b)).length - 1) /
            max (eatNonsenseTokens names (wcTokenize names a)).length
              (eatNonsenseTokens names (wcTokenize names b)).length : Nat),
          0, a, b, fz, ""⟩) := by
  constructor
  · intro h
    simp only [matchRelaxedWith, relaxedLoop_eq]
    rw [if_neg]
    simp only [gt_iff_lt, Nat.lt_min, not_and, not_lt, Nat.le_zero]
    intro ha
    rcases h with h | h
    · exact absurd (List.length_eq_zero.mpr h) (by omega)
    · exact List.length_eq_zero.mpr h
  · intro ha hb
    have hpa : 0 < (eatNonsenseTokens names (wcTokenize names a)).length :=
      List.length_pos.mpr ha
    have hpb : 0 < (eatNonsenseTokens names (wcTokenize names b)).length :=
      List.length_pos.mpr hb
    simp only [matchRelaxedWith, relaxedLoop_eq]
    rw [if_pos (by omega)]
    have hcnt : (((eatNonsenseTokens names (wcTokenize names a)).zip
        (eatNonsenseTokens names (wcTokenize names b))).countP fun p =>
          cmp p.1.token p.2.token) ≤
        max (eatNonsenseTokens names (wcTokenize names a)).length
          (eatNonsenseTokens names (wcTokenize names b)).length := by
      calc _ ≤ ((eatNonsenseTokens names (wcTokenize names a)).zip
            (eatNonsenseTokens names (wcTokenize names b))).length :=
          List.countP_le_length _
        _ = min _ _ := List.length_zip _ _
        _ ≤ _ := Nat.min_le_left _ _ |>.trans (Nat.le_max_left _ _)
    exact matchTypeOfNatFrac_ok _ _ hcnt (by omega) a b fz

/-- C6 (witness): the formula at a concrete pair whose filtered token
lists are `[Tx, En]` and `[Tx]` — one pair is compared, and the score is
`ceil((1 / 2) * 100) = 50`. -/
theorem relaxed_score_formula_witness :
    matchRelaxedWith (compareWords true) [] false "TxEn" "Tx" =
      .ok ⟨(((((eatNonsenseTokens [] (wcTokenize [] "TxEn")).zip
            (eatNonsenseTokens [] (wcTokenize [] "Tx"))).countP fun p =>
              compareWords true p.1.token p.2.token) * 100 +
          max (eatNonsenseTokens [] (wcTokenize [] "TxEn")).length
            (eatNonsenseTokens [] (wcTokenize [] "Tx")).length - 1) /
          max (eatNonsenseTokens [] (wcTokenize [] "TxEn")).length
            (eatNonsenseTokens [] (wcTokenize [] "Tx")).length : Nat),
        0, "TxEn", "Tx", false, ""⟩ :=
  (relaxed_score_formula (compareWords true) [] false "TxEn" "Tx").2
    (by decide) (by decide)

/-- C2 (counterexample): the exact-token strategy pads the shorter token
sequence with Python `None`, but `_compare_token` stringifies it to
`"None"`, which DOES satisfy the synonym-equality predicate against a
literal `None` token: `"TxNone"` vs `"Tx"` scores 100, whereas the claimed
formula (matched common positions over the longer length) gives 50. -/
theorem simple_padding_matches_none_token :
    matchSimple [] false "TxNone" "Tx" = .ok ⟨100, 0, "TxNone", "Tx", false, ""⟩ ∧
    specExactTokenResult [] false "TxNone" "Tx" =
      .ok ⟨50, 0, "TxNone", "Tx", false, ""⟩ ∧
    compareWords false (pyStr (some ⟨"None", false⟩)) (pyStr none) = true := by
  decide

/-- C2 (amended): the padding placeholder is the string `"None"`
(`str` of the `None` fill value), which CAN satisfy the synonym-equality
predicate; whenever no surplus token of the longer sequence relates to
`"None"` under the predicate, no padded position is counted and the score
equals matched common positions over the longer token-sequence length. -/
theorem simple_score_with_inert_padding (names : List String) (dv : Bool) (a b : String)
    (h1 : ∀ t ∈ (wcTokenize names a).drop (wcTokenize names b).length,
        compareWords dv t.token "None" = false)
    (h2 : ∀ t ∈ (wcTokenize names b).drop (wcTokenize names a).length,
        compareWords dv "None" t.token = false)
    (h3 : wcTokenize names a ≠ [] ∨ wcTokenize names b ≠ []) :
    matchSimple names dv a b = specExactTokenResult names dv a b := by
  have hmax : (zipLongest (wcTokenize names a) (wcTokenize names b)).length ≠ 0 := by
    rw [zipLongest_length]
    intro hc
    have ha : (wcTokenize names a).length = 0 := by omega
    have hb : (wcTokenize names b).length = 0 := by omega
    rcases h3 with h | h
    · exact h (List.length_eq_zero.mp ha)
    · exact h (List.length_eq_zero.mp hb)
  have hcnt : (zipLongest (wcTokenize names a) (wcTokenize names b)).countP
      (fun p => compareWords dv (pyStr p.1) (pyStr p.2)) =
      ((wcTokenize names a).zip (wcTokenize names b)).countP
        (fun p => compareWords dv p.1.token p.2.token) := by
    rw [zipLongest_decomp]
    simp only [List.countP_append, List.countP_map]
    have z1 : List.countP
        ((fun p => compareWords dv (pyStr p.1) (pyStr p.2)) ∘ fun x => (some x, none))
        ((wcTokenize names a).drop (wcTokenize names b).length) = 0 := by
      rw [List.countP_eq_zero]
      intro t ht
      simpa [Function.comp, pyStr] using h1 t ht
    have z2 : List.countP
        ((fun p => compareWords dv (pyStr p.1) (pyStr p.2)) ∘ fun y => ((none : Option Token), some y))
        ((wcTokenize names b).drop (wcTokenize names a).length) = 0 := by
      rw [List.countP_eq_zero]
      intro t ht
      simpa [Function.comp, pyStr] using h2 t ht
    rw [z1, z2]
    simp only [Nat.add_zero]
    exact List.countP_congr fun p _ => by simp [Function.comp, pyStr]
  simp only [matchSimple, specExactTokenResult]
  rw [if_neg hmax, hcnt, zipLongest_length]

/-- C2 (witness): with no `None`-like surplus token the code's score and
the spec's formula agree at a concrete input (`"TxEn"` vs `"Tx"`). -/
theorem simple_score_with_inert_padding_witness :
    matchSimple [] false "TxEn" "Tx" = specExactTokenResult [] false "TxEn" "Tx" :=
  simple_score_with_inert_padding [] false "TxEn" "Tx"
    (by decide) (by decide) (by decide)

/-- When a comparator in the list scores 100 and everything before it does
not, `run_cmp` yields exactly the earlier comparators' entries plus the
perfect one, and reports the `GeneratorExit` stop. -/
theorem runCmpSeq_stop (a b : String) :
    ∀ (pre : List Cmp) (c : Cmp) (post : List Cmp) (st : WCState) (best : MatchType),
      (∀ x ∈ pre, (x.fn a b).percent ≠ 100) → (c.fn a b).percent = 100 →
      (runCmpSeq a b (pre ++ c :: post) st best).2.2 =
        (pre.map (cmpEntry a b) ++ [cmpEntry a b c], true) := by
  intro pre
  induction pre with
  | nil =>
    intro c post st best _ hc
    simp [runCmpSeq, runOneCmp, cmpEntry, hc]
  | cons p pre ih =>
    intro c post st best hpre hc
    have hp : (p.fn a b).percent ≠ 100 := hpre p (List.mem_cons_self p pre)
    have hrest := ih c post
      (runOneCmp a b st best p).1 (runOneCmp a b st best p).2.1
      (fun x hx => hpre x (List.mem_cons_of_mem p hx)) hc
    have e1 : (runCmpSeq a b (pre ++ c :: post) (runOneCmp a b st best p).1
        (runOneCmp a b st best p).2.1).2.2.1 =
        List.map (cmpEntry a b) pre ++ [cmpEntry a b c] := by rw [hrest]
    have e2 : (runCmpSeq a b (pre ++ c :: post) (runOneCmp a b st best p).1
        (runOneCmp a b st best p).2.1).2.2.2 = true := by rw [hrest]
    simp only [List.cons_append, runCmpSeq]
    rw [if_neg (by simp [runOneCmp, hp])]
    simp only [Prod.mk.injEq, List.map_cons, List.cons_append, List.append_eq]
    refine ⟨?_, e2⟩
    rw [e1]
    simp [runOneCmp, cmpEntry]

/-- When no comparator in the list scores 100, `run_cmp` yields every
comparator's entry and does not stop. -/
theorem runCmpSeq_nostop (a b : String) :
    ∀ (cs : List Cmp) (st : WCState) (best : MatchType),
      (∀ x ∈ cs, (x.fn a b).percent ≠ 100) →
      (runCmpSeq a b cs st best).2.2 = (cs.map (cmpEntry a b), false) := by
  intro cs
  induction cs with
  | nil => intro st best _; simp [runCmpSeq]
  | cons p cs ih =>
    intro st best hall
    have hp : (p.fn a b).percent ≠ 100 := hall p (List.mem_cons_self p cs)
    have hrest := ih (runOneCmp a b st best p).1 (runOneCmp a b st best p).2.1
      (fun x hx => hall x (List.mem_cons_of_mem p hx))
    have e1 : (runCmpSeq a b cs (runOneCmp a b st best p).1
        (runOneCmp a b st best p).2.1).2.2.1 = List.map (cmpEntry a b) cs := by rw [hrest]
    have e2 : (runCmpSeq a b cs (runOneCmp a b st best p).1
        (runOneCmp a b st best p).2.1).2.2.2 = false := by rw [hrest]
    simp only [runCmpSeq]
    rw [if_neg (by simp [runOneCmp, hp])]
    simp only [Prod.mk.injEq, List.map_cons]
    refine ⟨?_, e2⟩
    rw [e1]
    simp [runOneCmp, cmpEntry]

/-- C5: once any comparator returns a result equal to
`Exact(word_a, word_b)` — `__eq__` compares scores, so any score-100
result — the whole comparison stops: neither the remaining primary
comparators nor any fuzzy comparator runs (first conjunct), and a perfect
score found during the fuzzy fallback likewise stops the remaining fuzzy
comparators (second conjunct). -/
theorem compare_stops_at_exact (pre post fuzzyComps fpre fpost : List Cmp)
    (c c2 : Cmp) (fb : Bool) (a b : String) (st : WCState) :
    ((∀ x ∈ pre, (x.fn a b).percent ≠ 100) → (c.fn a b).percent = 100 →
      (runCompare (pre ++ c :: post) fuzzyComps fb a b st).2 =
        pre.map (cmpEntry a b) ++ [cmpEntry a b c]) ∧
    ((∀ x ∈ pre, (x.fn a b).percent ≠ 100) →
      (∀ x ∈ fpre, (x.fn a b).percent ≠ 100) → (c2.fn a b).percent = 100 →
      (runCompare pre (fpre ++ c2 :: fpost) true a b st).2 =
        pre.map (cmpEntry a b) ++ (fpre.map (cmpEntry a b) ++ [cmpEntry a b c2])) := by
  constructor
  · intro hpre hc
    have h := runCmpSeq_stop a b pre c post
      { st with runs := st.runs + 1 } (MatchType.NoMatch a b) hpre hc
    simp [runCompare, h]
  · intro hpre hfpre hc2
    have h1 := runCmpSeq_nostop a b pre
      { st with runs := st.runs + 1 } (MatchType.NoMatch a b) hpre
    have h2 := runCmpSeq_stop a b fpre c2 fpost
      (runCmpSeq a b pre { st with runs := st.runs + 1 } (MatchType.NoMatch a b)).1
      (runCmpSeq a b pre { st with runs := st.runs + 1 } (MatchType.NoMatch a b)).2.1
      hfpre hc2
    simp [runCompare, h1, h2]

/-- C5 (witness): a perfect comparator placed second stops the run after
the first (failing) comparator and itself; the trailing primary and the
fuzzy comparator never contribute an entry. -/
theorem compare_stops_at_exact_witness :
    (runCompare [cmpNone, cmpExact, cmpNone] [cmpNone] true "x" "y"
        (initWCState [cmpNone, cmpExact, cmpNone] [cmpNone])).2 =
      [cmpNone].map (cmpEntry "x" "y") ++ [cmpEntry "x" "y" cmpExact] :=
  (compare_stops_at_exact [cmpNone] [cmpNone] [cmpNone] [] [] cmpExact cmpExact
    true "x" "y" (initWCState [cmpNone, cmpExact, cmpNone] [cmpNone])).1
    (by decide) (by decide)

/-- `run_compare` bumps `runs` by exactly one: `runOneCmp` and `run_cmp`
never touch it, and neither does the final unmatched bookkeeping. -/
theorem runCmpSeq_runs (a b : String) :
    ∀ (cs : List Cmp) (st : WCState) (best : MatchType),
      ((runCmpSeq a b cs st best).1).runs = st.runs := by
  intro cs
  induction cs with
  | nil => intro st best; rfl
  | cons p cs ih =>
    intro st best
    simp only [runCmpSeq]
    split
    · rfl
    · exact ih (runOneCmp a b st best p).1 (runOneCmp a b st best p).2.1

/-- `run_compare` increments the `runs` counter exactly once. -/
theorem runCompare_runs (comps fuzzyComps : List Cmp) (fb : Bool) (a b : String)
    (st : WCState) :
    ((runCompare comps fuzzyComps fb a b st).1).runs = st.runs + 1 := by
  simp only [runCompare]
  repeat' split
  all_goals simp [runCmpSeq_runs]

/-- The comparison loop over `offs2` calls `run_compare` exactly once per
offset that also exists in `offs1`, so `runs` counts those offsets. -/
theorem layout_runs (comps fuzzyComps : List Cmp) (offs1 : List (Int × Reg)) :
    ∀ (l : List (Int × Reg)) (st : WCState) (k : Nat),
      ((l.foldl (layoutStep comps fuzzyComps offs1) (st, k)).1).runs =
        st.runs + (l.filter fun p => (alLookup offs1 p.1).isSome).length := by
  intro l
  induction l with
  | nil => intro st k; simp
  | cons p l ih =>
    intro st k
    simp only [List.foldl_cons, List.filter_cons]
    cases hl : alLookup offs1 p.1 with
    | none =>
      simp only [layoutStep, hl]
      rw [ih]
      simp [hl]
    | some r1 =>
      simp only [layoutStep, hl]
      rw [ih]
      simp [runCompare_runs, hl]
      omega

/-- C4: with name matching enabled, `compare_register_group_layout`
returns a `CompareResult` whose unmatched percentage is 100 when zero
name-comparisons ran and otherwise `unmatched_cnt * 100 / runs`, and whose
average certainty is 0 when there are no best-match entries and otherwise
the mean of the recorded best-match scores; moreover `runs` is exactly the
number of offsets of the second group present in the first. The hypothesis
restricts to configurations with at least one primary comparator — the
program always registers three — since with no comparators at all the
Python code would instead raise `KeyError` on `del best_matches[(a, b)]`. -/
theorem layout_percentages (comps fuzzyComps : List Cmp) (g1 g2 : RegistersGroup)
    (_hc : comps ≠ []) :
    ∃ res, compareRegisterGroupLayout comps fuzzyComps g1 g2 true = some res ∧
      res.Unmatched = (if (layoutState comps fuzzyComps g1 g2).1.runs = 0 then (100 : ℚ)
        else ((layoutState comps fuzzyComps g1 g2).1.unmatched.length * 100 : ℚ) /
          (layoutState comps fuzzyComps g1 g2).1.runs) ∧
      res.Avg = (if (layoutState comps fuzzyComps g1 g2).1.best_matches.length = 0
        then (0 : ℚ)
        else ((layoutState comps fuzzyComps g1 g2).1.best_matches.map fun p =>
            (p.2.percent : ℚ)).sum /
          (layoutState comps fuzzyComps g1 g2).1.best_matches.length) ∧
      (layoutState comps fuzzyComps g1 g2).1.runs =
        ((createDict g2.registers).filter fun p =>
          (alLookup (createDict g1.registers) p.1).isSome).length := by
  refine ⟨_, rfl, rfl, rfl, ?_⟩
  simp only [layoutState]
  have h := layout_runs comps fuzzyComps (createDict g1.registers)
    (createDict g2.registers) (initWCState comps fuzzyComps) 0
  simpa [initWCState] using h

/-- C4 (witness): the percentage formulas at a concrete comparison of two
empty register groups with one registered comparator. -/
theorem layout_percentages_witness :
    ∃ res, compareRegisterGroupLayout [cmpNone] [] ⟨"A", []⟩ ⟨"B", []⟩ true = some res ∧
      res.Unmatched = (if (layoutState [cmpNone] [] ⟨"A", []⟩ ⟨"B", []⟩).1.runs = 0
        then (100 : ℚ)
        else ((layoutState [cmpNone] [] ⟨"A", []⟩ ⟨"B", []⟩).1.unmatched.length * 100 : ℚ) /
          (layoutState [cmpNone] [] ⟨"A", []⟩ ⟨"B", []⟩).1.runs) ∧
      res.Avg = (if (layoutState [cmpNone] [] ⟨"A", []⟩ ⟨"B", []⟩).1.best_matches.length = 0
        then (0 : ℚ)
        else ((layoutState [cmpNone] [] ⟨"A", []⟩ ⟨"B", []⟩).1.best_matches.map fun p =>
            (p.2.percent : ℚ)).sum /
          (layoutState [cmpNone] [] ⟨"A", []⟩ ⟨"B", []⟩).1.best_matches.length) ∧
      (layoutState [cmpNone] [] ⟨"A", []⟩ ⟨"B", []⟩).1.runs =
        ((createDict (RegistersGroup.mk "B" []).registers).filter fun p =>
          (alLookup (createDict (RegistersGroup.mk "A" []).registers) p.1).isSome).length :=
  layout_percentages [cmpNone] [] ⟨"A", []⟩ ⟨"B", []⟩ (by simp)
